import Mathlib

set_option maxRecDepth 100000

deriving instance DecidableEq for Except

/-!
Verification of the identifier-encoding and event-normalization core of the
ERC1155 token connector, shallowly embedded from the TypeScript sources
(`tokens.util.ts` and the tokens service with its embedded event listener).

Modelling conventions:
* JavaScript `BigInt` values are modelled as `Int` (arbitrary precision in both).
* JavaScript strings are modelled as `String` (sequences of UTF-16-ish `Char`s).
* A thrown JavaScript exception is modelled as `Option.none` or `Except.error`.
* `BigInt(string)` conversion is modelled on the fragment actually exercised by
  the connector: an optional sign followed by decimal digits (the radix-prefixed
  literal forms `0x`/`0o`/`0b` and surrounding whitespace are outside the
  modelled fragment; every identifier this development reasons about is a plain
  decimal numeral).
-/

namespace ERC1155

/-- Decimal digit characters, as produced by JS `BigInt.prototype.toString(10)`. -/
def decDigitChar : Nat → Char
  | 0 => '0'
  | 1 => '1'
  | 2 => '2'
  | 3 => '3'
  | 4 => '4'
  | 5 => '5'
  | 6 => '6'
  | 7 => '7'
  | 8 => '8'
  | 9 => '9'
  | _ => '*'

/-- Lower-case hexadecimal digit characters, as produced by `toString(16)`. -/
def hexDigitChar : Nat → Char
  | 0 => '0'
  | 1 => '1'
  | 2 => '2'
  | 3 => '3'
  | 4 => '4'
  | 5 => '5'
  | 6 => '6'
  | 7 => '7'
  | 8 => '8'
  | 9 => '9'
  | 10 => 'a'
  | 11 => 'b'
  | 12 => 'c'
  | 13 => 'd'
  | 14 => 'e'
  | 15 => 'f'
  | _ => '*'

/-- The numeric value of a decimal digit character, `none` for any other character. -/
def decDigitVal? (c : Char) : Option Nat :=
  if '0' ≤ c ∧ c ≤ '9' then some (c.toNat - 48) else none

/-- Left fold of a digit string onto an accumulator; `none` as soon as a
non-digit is hit (models the all-digits requirement of `StringToBigInt`). -/
def parseDecDigits : List Char → Nat → Option Nat
  | [], acc => some acc
  | c :: cs, acc =>
    match decDigitVal? c with
    | some d => parseDecDigits cs (10 * acc + d)
    | none => none

/-- Digits of `n` in base `base`, most significant first.  The `fuel` argument
makes the recursion structural; any `fuel > n` is enough (each step divides by
the base). -/
def natToDigitsAux (base : Nat) (digit : Nat → Char) : Nat → Nat → List Char
  | 0, _ => []
  | fuel + 1, n =>
    if n < base then [digit n]
    else natToDigitsAux base digit fuel (n / base) ++ [digit (n % base)]

/-- Canonical decimal string of a natural number (JS `toString(10)` of a
nonnegative `BigInt`). -/
def natToDecimal (n : Nat) : String :=
  String.mk (natToDigitsAux 10 decDigitChar (n + 1) n)

/-- Canonical lower-case hexadecimal string of a natural number (`toString(16)`). -/
def natToHex (n : Nat) : String :=
  String.mk (natToDigitsAux 16 hexDigitChar (n + 1) n)

/-- JS `BigInt.prototype.toString(10)`: decimal digits, preceded by `-` when
negative. -/
def bigIntToString (v : Int) : String :=
  if v < 0 then "-" ++ natToDecimal v.natAbs else natToDecimal v.natAbs

/-- JS `BigInt.prototype.toString(16)`: hex digits, preceded by `-` when negative. -/
def bigIntToHexString (v : Int) : String :=
  if v < 0 then "-" ++ natToHex v.natAbs else natToHex v.natAbs

/-- JS `BigInt(string)` on the decimal fragment (see the file header): the empty
string converts to `0`, an optional single sign may precede the digits, and any
other shape throws (modelled as `none`). -/
def parseBigInt (s : String) : Option Int :=
  match s.data with
  | [] => some 0
  | '-' :: cs =>
    if cs.isEmpty then none
    else (parseDecDigits cs 0).map (fun n => -(n : Int))
  | '+' :: cs =>
    if cs.isEmpty then none
    else (parseDecDigits cs 0).map (fun n => (n : Int))
  | cs => (parseDecDigits cs 0).map (fun n => (n : Int))

/-- JS `String.prototype.padStart(n, c)`. -/
def padStart (s : String) (n : Nat) (c : Char) : String :=
  String.mk (List.replicate (n - s.data.length) c ++ s.data)

/-! ### Round-trip facts for the decimal printer/parser -/

theorem decDigitVal_decDigitChar {d : Nat} (h : d ≤ 9) :
    decDigitVal? (decDigitChar d) = some d := by
  interval_cases d <;> decide

theorem decDigitChar_ne_dash {d : Nat} (h : d ≤ 9) :
    decDigitChar d ≠ '-' ∧ decDigitChar d ≠ '+' := by
  interval_cases d <;> decide

theorem parseDecDigits_append (xs ys : List Char) (acc : Nat) :
    parseDecDigits (xs ++ ys) acc =
      (parseDecDigits xs acc).bind (fun m => parseDecDigits ys m) := by
  induction xs generalizing acc with
  | nil => rfl
  | cons c cs ih =>
    simp only [List.cons_append, parseDecDigits]
    cases decDigitVal? c with
    | none => rfl
    | some d => simp [ih]

theorem natToDigitsAux_head (fuel n : Nat) (hfuel : 0 < fuel) :
    ∃ d cs, natToDigitsAux 10 decDigitChar fuel n = decDigitChar d :: cs ∧ d ≤ 9 := by
  induction fuel generalizing n with
  | zero => omega
  | succ fuel ih =>
    by_cases h : n < 10
    · exact ⟨n, [], by simp [natToDigitsAux, h], by omega⟩
    · rcases Nat.eq_zero_or_pos fuel with h0 | h0
      · refine ⟨n % 10, [], ?_, by omega⟩
        subst h0
        simp [natToDigitsAux, h]
      · obtain ⟨d, cs, heq, hd⟩ := ih (n / 10) h0
        exact ⟨d, cs ++ [decDigitChar (n % 10)], by simp [natToDigitsAux, h, heq], hd⟩

theorem parseDecDigits_natToDigitsAux (fuel : Nat) :
    ∀ n : Nat, n < fuel →
      parseDecDigits (natToDigitsAux 10 decDigitChar fuel n) 0 = some n := by
  induction fuel with
  | zero => omega
  | succ fuel ih =>
    intro n hn
    by_cases h : n < 10
    · simp [natToDigitsAux, h, parseDecDigits, decDigitVal_decDigitChar (by omega : n ≤ 9)]
    · have hdiv : n / 10 < n := Nat.div_lt_self (by omega) (by omega)
      have hmod : n % 10 ≤ 9 := by omega
      have hrec := ih (n / 10) (by omega)
      have hdigit : parseDecDigits [decDigitChar (n % 10)] (n / 10) = some n := by
        have hval : 10 * (n / 10) + n % 10 = n := by omega
        simp [parseDecDigits, decDigitVal_decDigitChar hmod, hval]
      simp [natToDigitsAux, h, parseDecDigits_append, hrec, hdigit]

theorem parseDecDigits_natToDecimal (n : Nat) :
    parseDecDigits (natToDecimal n).data 0 = some n := by
  have := parseDecDigits_natToDigitsAux (n + 1) n (by omega)
  simpa [natToDecimal] using this

theorem parseBigInt_natToDecimal (n : Nat) :
    parseBigInt (natToDecimal n) = some (n : Int) := by
  obtain ⟨d, cs, heq, hd⟩ := natToDigitsAux_head (n + 1) n (by omega)
  have hdata : (natToDecimal n).data = decDigitChar d :: cs := by
    simp [natToDecimal, heq]
  have hparse : parseDecDigits (decDigitChar d :: cs) 0 = some n := by
    rw [← hdata]
    exact parseDecDigits_natToDecimal n
  obtain ⟨hdash, hplus⟩ := decDigitChar_ne_dash hd
  unfold parseBigInt
  rw [hdata]
  split
  · simp_all
  · simp_all
  · simp_all
  · rw [hparse]
    rfl

theorem natToDecimal_injective {a b : Nat} (h : natToDecimal a = natToDecimal b) :
    a = b := by
  have ha := parseBigInt_natToDecimal a
  have hb := parseBigInt_natToDecimal b
  rw [h] at ha
  rw [ha] at hb
  simpa using hb

theorem parseDecDigits_replicate_zero (k : Nat) (xs : List Char) :
    parseDecDigits (List.replicate k '0' ++ xs) 0 = parseDecDigits xs 0 := by
  induction k with
  | zero => rfl
  | succ k ih => simpa [List.replicate_succ, parseDecDigits, decDigitVal?] using ih

theorem padStart_natToDecimal_injective {w : Nat} {a b : Nat}
    (h : padStart (natToDecimal a) w '0' = padStart (natToDecimal b) w '0') :
    a = b := by
  have ha : parseDecDigits (padStart (natToDecimal a) w '0').data 0 = some a := by
    simpa [padStart, parseDecDigits_replicate_zero] using parseDecDigits_natToDecimal a
  have hb : parseDecDigits (padStart (natToDecimal b) w '0').data 0 = some b := by
    simpa [padStart, parseDecDigits_replicate_zero] using parseDecDigits_natToDecimal b
  rw [h, hb] at ha
  simpa using ha.symm

/-! ## `tokens.util.ts`: the token-id codec -/

/-- `tokens.util.ts` `isFungible`: tests whether character 0 of the pool id is
`F` (JS `pool_id[0] === 'F'`; an empty string has no character 0 and the
comparison is false). -/
def isFungible (pool_id : String) : Bool :=
  pool_id.data.head? == some 'F'

/-- JS `s.substr(1)`. -/
def jsSubstr1 (s : String) : String := String.mk (s.data.drop 1)

/-- JS BigInt left shift by a nonnegative constant: multiplication by `2 ^ k`. -/
def jsShl (a : Int) (k : Nat) : Int := a * 2 ^ k

/-- JS BigInt right shift by a nonnegative constant: floor division by `2 ^ k`. -/
def jsShr (a : Int) (k : Nat) : Int := Int.fdiv a (2 ^ k)

/-- JS `BigInt.asUintN(k, a)`: `a` reduced into `[0, 2^k)` (`Int.emod` with a
positive modulus). -/
def asUintN (k : Nat) (a : Int) : Int := a % 2 ^ k

/-- `tokens.util.ts` `packTokenId`: ors together the fungibility flag shifted to
bit 255, the pool sequence (the pool id after its tag character) shifted to bit
128, and the token index, and renders the value in decimal.  `none` models the
`SyntaxError` thrown by `BigInt()` on an unparseable numeral. -/
def packTokenId (pool_id : String) (token_index : String := "0") : Option String :=
  match parseBigInt (jsSubstr1 pool_id), parseBigInt token_index with
  | some seq, some idx =>
    some (bigIntToString
      (Int.lor (Int.lor (jsShl (if isFungible pool_id then 0 else 1) 255) (jsShl seq 128)) idx))
  | _, _ => none

structure UnpackedTokenId where
  isFungible : Bool
  poolId : String
  tokenIndex : String
deriving DecidableEq

/-- `tokens.util.ts` `unpackTokenId`: recovers the flag (bit 255), pool
sequence (bits 128-254, rendered after an `F`/`N` tag) and token index (low 128
bits) of any parseable numeral. -/
def unpackTokenId (id : String) : Option UnpackedTokenId :=
  (parseBigInt id).map (fun val =>
    let isFun : Bool := jsShr val 255 == 0
    { isFungible := isFun,
      poolId := (if isFun then "F" else "N") ++ bigIntToString (jsShr (asUintN 255 val) 128),
      tokenIndex := bigIntToString (asUintN 128 val) })

/-! ### Evaluation lemmas for the codec -/

theorem bigIntToString_natCast (n : Nat) : bigIntToString (n : Int) = natToDecimal n := by
  have h : ¬ ((n : Int) < 0) := by omega
  simp [bigIntToString, h]

theorem fdiv_natCast (m n : Nat) : Int.fdiv (m : Int) (n : Int) = ((m / n : Nat) : Int) := by
  cases m with
  | zero => simp [Int.fdiv]
  | succ k => rfl

theorem emod_natCast (m n : Nat) : (m : Int) % (n : Int) = ((m % n : Nat) : Int) := rfl

theorem lor_natCast (a b : Nat) : Int.lor (a : Int) (b : Int) = ((a ||| b : Nat) : Int) := rfl

theorem beq_zero_natCast (f : Nat) : (((f : Int)) == 0) = (f == 0) := by
  cases f with
  | zero => rfl
  | succ k => rfl

theorem two_pow_cast (k : Nat) : ((2 ^ k : Nat) : Int) = (2 : Int) ^ k := by push_cast; ring

theorem packed_mid_lt {s i : Nat} (hs : s < 2 ^ 127) (hi : i < 2 ^ 128) :
    s * 2 ^ 128 + i < 2 ^ 255 := by
  calc s * 2 ^ 128 + i < s * 2 ^ 128 + 2 ^ 128 := by omega
  _ = (s + 1) * 2 ^ 128 := by ring
  _ ≤ 2 ^ 127 * 2 ^ 128 := Nat.mul_le_mul_right _ hs
  _ = 2 ^ 255 := by rw [← pow_add]

theorem pack_value_eq (f s i : Nat) (hs : s < 2 ^ 127) (hi : i < 2 ^ 128) :
    Int.lor (Int.lor (jsShl (f : Int) 255) (jsShl (s : Int) 128)) (i : Int) =
      ((f * 2 ^ 255 + s * 2 ^ 128 + i : Nat) : Int) := by
  have h1 : jsShl (f : Int) 255 = ((f * 2 ^ 255 : Nat) : Int) := by
    simp only [jsShl]
    push_cast
    ring
  have h2 : jsShl (s : Int) 128 = ((s * 2 ^ 128 : Nat) : Int) := by
    simp only [jsShl]
    push_cast
    ring
  have hmid : s * 2 ^ 128 + 0 < 2 ^ 255 := packed_mid_lt hs (Nat.two_pow_pos 128)
  have hb : s * 2 ^ 128 < 2 ^ 255 := by omega
  have hor1 : (f * 2 ^ 255) ||| (s * 2 ^ 128) = f * 2 ^ 255 + s * 2 ^ 128 := by
    rw [Nat.mul_comm f (2 ^ 255), ← Nat.mul_add_lt_is_or hb f]
  have hfact : f * 2 ^ 255 + s * 2 ^ 128 = 2 ^ 128 * (2 ^ 127 * f + s) := by ring
  have hor2 : (f * 2 ^ 255 + s * 2 ^ 128) ||| i = f * 2 ^ 255 + s * 2 ^ 128 + i := by
    rw [hfact, ← Nat.mul_add_lt_is_or hi (2 ^ 127 * f + s)]
  rw [h1, h2, lor_natCast, hor1, lor_natCast, hor2]

theorem packTokenId_eval (c : Char) (rest : List Char) (idxStr : String) (s i : Nat)
    (hs : parseBigInt (String.mk rest) = some (s : Int))
    (hi : parseBigInt idxStr = some (i : Int))
    (hsb : s < 2 ^ 127) (hib : i < 2 ^ 128) :
    packTokenId (String.mk (c :: rest)) idxStr =
      some (natToDecimal ((if c = 'F' then 0 else 1) * 2 ^ 255 + s * 2 ^ 128 + i)) := by
  have hsub : jsSubstr1 (String.mk (c :: rest)) = String.mk rest := rfl
  have hfun : (if isFungible (String.mk (c :: rest)) then (0 : Int) else 1) =
      (((if c = 'F' then 0 else 1) : Nat) : Int) := by
    by_cases hc : c = 'F' <;> simp [isFungible, hc]
  unfold packTokenId
  rw [hsub, hs, hi]
  simp only [hfun]
  rw [pack_value_eq (if c = 'F' then 0 else 1) s i hsb hib, bigIntToString_natCast]

theorem unpackTokenId_eval (f s i : Nat) (hf : f ≤ 1) (hs : s < 2 ^ 127) (hi : i < 2 ^ 128) :
    unpackTokenId (natToDecimal (f * 2 ^ 255 + s * 2 ^ 128 + i)) =
      some { isFungible := f == 0,
             poolId := (if f == 0 then "F" else "N") ++ natToDecimal s,
             tokenIndex := natToDecimal i } := by
  have hmid : s * 2 ^ 128 + i < 2 ^ 255 := packed_mid_lt hs hi
  have hN : f * 2 ^ 255 + s * 2 ^ 128 + i = 2 ^ 255 * f + (s * 2 ^ 128 + i) := by ring
  have hdivN : (f * 2 ^ 255 + s * 2 ^ 128 + i) / 2 ^ 255 = f := by
    rw [hN, Nat.mul_add_div (Nat.two_pow_pos 255), Nat.div_eq_of_lt hmid, Nat.add_zero]
  have hmodN : (f * 2 ^ 255 + s * 2 ^ 128 + i) % 2 ^ 255 = s * 2 ^ 128 + i := by
    rw [hN, Nat.mul_add_mod, Nat.mod_eq_of_lt hmid]
  have hdivMid : (s * 2 ^ 128 + i) / 2 ^ 128 = s := by
    rw [Nat.mul_comm s (2 ^ 128), Nat.mul_add_div (Nat.two_pow_pos 128),
      Nat.div_eq_of_lt hi, Nat.add_zero]
  have hN' : f * 2 ^ 255 + s * 2 ^ 128 + i = 2 ^ 128 * (2 ^ 127 * f + s) + i := by ring
  have hmodLow : (f * 2 ^ 255 + s * 2 ^ 128 + i) % 2 ^ 128 = i := by
    rw [hN', Nat.mul_add_mod, Nat.mod_eq_of_lt hi]
  have hshr : jsShr ((f * 2 ^ 255 + s * 2 ^ 128 + i : Nat) : Int) 255 = ((f : Nat) : Int) := by
    simp only [jsShr, ← two_pow_cast, fdiv_natCast, hdivN]
  have hmod255 : asUintN 255 ((f * 2 ^ 255 + s * 2 ^ 128 + i : Nat) : Int) =
      ((s * 2 ^ 128 + i : Nat) : Int) := by
    simp only [asUintN, ← two_pow_cast, emod_natCast, hmodN]
  have hmid2 : jsShr ((s * 2 ^ 128 + i : Nat) : Int) 128 = ((s : Nat) : Int) := by
    simp only [jsShr, ← two_pow_cast, fdiv_natCast, hdivMid]
  have hmod128 : asUintN 128 ((f * 2 ^ 255 + s * 2 ^ 128 + i : Nat) : Int) =
      ((i : Nat) : Int) := by
    simp only [asUintN, ← two_pow_cast, emod_natCast, hmodLow]
  unfold unpackTokenId
  rw [parseBigInt_natToDecimal, Option.map_some']
  simp only [hshr, hmod255, hmid2, hmod128, beq_zero_natCast, bigIntToString_natCast]

/-- **C1.** For every tag `t ∈ {F, N}`, every pool sequence `s < 2^127` and
every token index `i < 2^128`, `unpackTokenId (packTokenId (t + decimal s)
(decimal i))` returns exactly the triple `(isFungible = (t = F), poolId =
t + decimal s, tokenIndex = decimal i)`. -/
theorem C1_token_id_round_trip (t : Char) (s i : Nat)
    (ht : t = 'F' ∨ t = 'N') (hs : s < 2 ^ 127) (hi : i < 2 ^ 128) :
    (packTokenId (String.mk [t] ++ natToDecimal s) (natToDecimal i)).bind unpackTokenId =
      some { isFungible := t == 'F',
             poolId := String.mk [t] ++ natToDecimal s,
             tokenIndex := natToDecimal i } := by
  have hmk : String.mk [t] ++ natToDecimal s = String.mk (t :: (natToDecimal s).data) := rfl
  have hparse : parseBigInt (String.mk (natToDecimal s).data) = some ((s : Nat) : Int) :=
    parseBigInt_natToDecimal s
  rw [hmk, packTokenId_eval t ((natToDecimal s).data) (natToDecimal i) s i hparse
    (parseBigInt_natToDecimal i) hs hi, Option.some_bind,
    unpackTokenId_eval (if t = 'F' then 0 else 1) s i (by split <;> omega) hs hi]
  rcases ht with ht | ht <;> subst ht <;> simp <;> rfl

/-- **C1 witness**: the round trip instantiated at tag `N`, sequence 5,
index 7. -/
theorem C1_token_id_round_trip_witness :
    (('N' = 'F' ∨ 'N' = 'N') ∧ (5 : Nat) < 2 ^ 127 ∧ (7 : Nat) < 2 ^ 128) ∧
    (packTokenId (String.mk ['N'] ++ natToDecimal 5) (natToDecimal 7)).bind unpackTokenId =
      some { isFungible := 'N' == 'F',
             poolId := String.mk ['N'] ++ natToDecimal 5,
             tokenIndex := natToDecimal 7 } :=
  ⟨⟨Or.inr rfl, by norm_num, by norm_num⟩,
   C1_token_id_round_trip 'N' 5 7 (Or.inr rfl) (by norm_num) (by norm_num)⟩

/-- Shared evaluation: packing pool id `N1` (default token index `0`) yields
`2^255 + 2^128` in decimal. -/
theorem packTokenId_N1 :
    packTokenId "N1" =
      some "57896044618658097711785492504343953926975274699741220483192166611388333031424" := by
  have h := packTokenId_eval 'N' ['1'] "0" 1 0 (by decide) (by decide)
    (by norm_num) (by norm_num)
  rw [show ("N1" : String) = String.mk ['N', '1'] from rfl]
  rw [h]
  norm_num
  decide

/-- **C2 counterexample.** The claim says `packTokenId` fails with
`InvalidIdentifier` whenever the first character of the pool id is neither `F`
nor `N`; but `packTokenId "X1" "0"` succeeds, silently treating the unknown tag
`X` as non-fungible and returning the packed value `2^255 + 2^128`. -/
theorem C2_pack_token_id_no_validation_counterexample :
    packTokenId "X1" "0" =
      some "57896044618658097711785492504343953926975274699741220483192166611388333031424" := by
  have h := packTokenId_eval 'X' ['1'] "0" 1 0 (by decide) (by decide)
    (by norm_num) (by norm_num)
  rw [show ("X1" : String) = String.mk ['X', '1'] from rfl]
  rw [h]
  norm_num
  decide

/-- **C2 (amended).** `packTokenId` performs no tag or bit-width validation and
raises no typed `InvalidIdentifier`: it returns no token id exactly when the
remainder of the pool id or the token index fails `BigInt` integer parsing (a
native `SyntaxError`); any first character other than `F` is treated as
non-fungible, and out-of-range values are packed without error. -/
theorem C2_pack_token_id_failure_amended (pool_id token_index : String) :
    (packTokenId pool_id token_index).isSome =
      ((parseBigInt (jsSubstr1 pool_id)).isSome && (parseBigInt token_index).isSome) := by
  unfold packTokenId
  cases parseBigInt (jsSubstr1 pool_id) <;> cases parseBigInt token_index <;> rfl

/-- **C7.** `packTokenId "F1"` (default token index) is the decimal string for
`2^128`, and `packTokenId "N1" "0"` is the decimal string for `2^255 + 2^128`. -/
theorem C7_pack_token_id_literals :
    packTokenId "F1" = some "340282366920938463463374607431768211456" ∧
    packTokenId "N1" "0" =
      some "57896044618658097711785492504343953926975274699741220483192166611388333031424" := by
  constructor
  · have h := packTokenId_eval 'F' ['1'] "0" 1 0 (by decide) (by decide)
      (by norm_num) (by norm_num)
    rw [show ("F1" : String) = String.mk ['F', '1'] from rfl]
    rw [h]
    norm_num
    decide
  · exact packTokenId_N1

/-! ## Hex payload helpers (`encodeHex`, `decodeHex`, `encodeHexIDForURI`)

`encodeHex` and `decodeHex` are embedded from `tokens.util.ts`;
`encodeHexIDForURI` is not included under `src/` and is modelled from the
spec.  No verified property inspects the payload bytes these produce; they are
carried through the notification envelopes verbatim. -/

/-- The numeric value of a hexadecimal digit character, `none` otherwise. -/
def hexDigitVal? (c : Char) : Option Nat :=
  if '0' ≤ c ∧ c ≤ '9' then some (c.toNat - 48)
  else if 'a' ≤ c ∧ c ≤ 'f' then some (c.toNat - 87)
  else if 'A' ≤ c ∧ c ≤ 'F' then some (c.toNat - 55)
  else none

/-- Byte values of a hex string, consumed two digits at a time; decoding stops
at the first invalid or incomplete pair (the behaviour of
`Buffer.from(-, 'hex')`). -/
def decodeHexPairs : List Char → List Nat
  | a :: b :: rest =>
    match hexDigitVal? a, hexDigitVal? b with
    | some x, some y => (16 * x + y) :: decodeHexPairs rest
    | _, _ => []
  | _ => []

/-- JS `data.replace('0x', '')`: removes the first occurrence of `0x`. -/
def removeFirst0x : List Char → List Char
  | '0' :: 'x' :: rest => rest
  | c :: rest => c :: removeFirst0x rest
  | [] => []

/-- `tokens.util.ts` `decodeHex`: strips a `0x` marker and decodes hex pairs to
bytes.  The bytes are rendered one character per byte (multi-byte UTF-8
sequences are not reassembled; no verified property inspects this payload). -/
def decodeHex (data : String) : String :=
  String.mk ((decodeHexPairs (removeFirst0x data.data)).map Char.ofNat)

/-- UTF-8 bytes of one character. -/
def utf8Bytes (c : Char) : List Nat :=
  let n := c.toNat
  if n < 128 then [n]
  else if n < 2048 then [192 + n / 64, 128 + n % 64]
  else if n < 65536 then [224 + n / 4096, 128 + (n / 64) % 64, 128 + n % 64]
  else [240 + n / 262144, 128 + (n / 4096) % 64, 128 + (n / 64) % 64, 128 + n % 64]

/-- Two lower-case hex digits of a byte. -/
def byteToHex (b : Nat) : List Char :=
  [hexDigitChar (b / 16), hexDigitChar (b % 16)]

/-- `tokens.util.ts` `encodeHex`: `'0x' + Buffer.from(data, 'utf8').toString('hex')`. -/
def encodeHex (data : String) : String :=
  "0x" ++ String.mk ((data.data.flatMap utf8Bytes).flatMap byteToHex)

/-- Modelled from the spec: `encodeHexIDForURI` (not included under `src/`)
renders a token id as the 64-digit zero-padded lower-case hex form used for
ERC-1155 metadata-URI substitution; `none` models the `BigInt` parse throw. -/
def encodeHexIDForURI (id : String) : Option String :=
  (parseBigInt id).map (fun v => padStart (bigIntToHexString v) 64 '0')

/-! ## Spec-modelled subscription-name and pool-locator codecs

These utilities are imported by the service from `tokens.util.ts` but the
revision of that file containing them is not included under `src/`; they are
modelled from the spec (§4.1-§4.2): fields joined by a delimiter excluded from
field values, unparseable names decoding to absent fields instead of throwing. -/

/-- Splits a character list on a separator; always returns at least one
(possibly empty) group, like JS `String.prototype.split`. -/
def splitOnChar (sep : Char) : List Char → List (List Char)
  | [] => [[]]
  | c :: cs =>
    match splitOnChar sep cs with
    | [] => [[]]
    | g :: gs => if c = sep then [] :: g :: gs else (c :: g) :: gs

/-- Modelled from the spec: `packSubscriptionName` joins topic, instance path,
pool locator (or the `base` sentinel) and event name with `:`. -/
def packSubscriptionName (topic instancePath poolLocator event : String) : String :=
  topic ++ ":" ++ instancePath ++ ":" ++ poolLocator ++ ":" ++ event

structure UnpackedSubscriptionName where
  topic : Option String := none
  instancePath : Option String := none
  poolLocator : Option String := none
  event : Option String := none
deriving DecidableEq

/-- Modelled from the spec: `unpackSubscriptionName` splits on the delimiter;
when the arity does not match the current four-field scheme it returns a result
with `poolLocator` and `event` absent (never throws). -/
def unpackSubscriptionName (name : String) : UnpackedSubscriptionName :=
  match (splitOnChar ':' name.data).map String.mk with
  | [t, i, p, e] => { topic := some t, instancePath := some i,
                      poolLocator := some p, event := some e }
  | _ => {}

structure PoolLocatorParts where
  poolId : String
  address : Option String := none
  blockNumber : Option String := none
deriving DecidableEq

/-- Strips a literal leading character sequence, returning the remainder. -/
def stripLeadChars : List Char → List Char → Option (List Char)
  | [], cs => some cs
  | p :: ps, c :: cs => if c = p then stripLeadChars ps cs else none
  | _ :: _, [] => none

/-- The value of a `key=value` locator segment, when `seg` carries `key`. -/
def segValue (key : String) (seg : List Char) : Option String :=
  (stripLeadChars (key.data ++ ['=']) seg).map String.mk

/-- Modelled from the spec: `unpackPoolLocator` reads the pool id from the
first `&`-delimited segment and optional `address=`/`block=` suffix fields from
the rest; absent fields decode to `none`. -/
def unpackPoolLocator (locator : String) : PoolLocatorParts :=
  match splitOnChar '&' locator.data with
  | [] => { poolId := locator }
  | p :: rest =>
    { poolId := String.mk p,
      address := (rest.filterMap (segValue "address")).head?,
      blockNumber := (rest.filterMap (segValue "block")).head? }

/-- Modelled from the spec: `packPoolLocator` concatenates the pool id and,
when present, the starting block number, behind the `&` delimiter. -/
def packPoolLocator (poolId : String) (blockNumber : Option String) : String :=
  match blockNumber with
  | none => poolId
  | some b => poolId ++ "&block=" ++ b

/-! ## Event data model (`tokens.service.ts` / `tokens.interfaces.ts`)

One `EventData` record models the union of the decoded event bodies
(`TransferSingle`, `TransferBatch`, `TokenPoolCreation`, `ApprovalForAll`);
fields a given event kind does not carry stay at their defaults, mirroring
absent keys on the JS object.  `from` is a Lean keyword, hence the guillemets. -/

def TOKEN_STANDARD : String := "ERC1155"

def ZERO_ADDRESS : String := "0x0000000000000000000000000000000000000000"

def BASE_SUBSCRIPTION_NAME : String := "base"

def tokenCreateEvent : String := "TokenPoolCreation"

def tokenCreateEventSignatureOld : String := "TokenCreate(address,uint256,bytes)"

def tokenCreateEventSignature : String := "TokenPoolCreation(address,uint256,bytes)"

def transferSingleEvent : String := "TransferSingle"

def transferSingleEventSignature : String :=
  "TransferSingle(address,address,address,uint256,uint256)"

def transferBatchEvent : String := "TransferBatch"

def transferBatchEventSignature : String :=
  "TransferBatch(address,address,address,uint256[],uint256[])"

def approvalForAllEvent : String := "ApprovalForAll"

def approvalForAllEventSignature : String := "ApprovalForAll(address,address,bool)"

def ALL_SUBSCRIBED_EVENTS : List String :=
  [tokenCreateEvent, transferSingleEvent, transferBatchEvent, approvalForAllEvent]

structure EventData where
  operator : String := ""
  «from» : String := ""
  «to» : String := ""
  id : String := ""
  value : String := ""
  type_id : String := ""
  data : String := ""
  ids : List String := []
  values : List String := []
  account : String := ""
  approved : Bool := false
deriving DecidableEq

structure Event where
  address : String := ""
  signature : String := ""
  blockNumber : Option String := none
  transactionIndex : String := ""
  transactionHash : String := ""
  logIndex : Option String := none
  timestamp : String := ""
  /-- models `event.inputArgs?.data` -/
  inputArgsData : Option String := none
  data : EventData := {}
deriving DecidableEq

structure BlockchainInfoDetails where
  blockNumber : Option String
  transactionIndex : String
  transactionHash : String
  logIndex : Option String
  address : String
  signature : String
deriving DecidableEq

structure BlockchainEvent where
  id : String
  name : String
  location : String
  signature : String
  timestamp : String
  output : EventData
  info : BlockchainInfoDetails
deriving DecidableEq

structure TokenPoolPayload where
  standard : String
  poolLocator : String
  type : String
  signer : String
  data : String
  infoAddress : String
  infoTypeId : String
  blockchain : BlockchainEvent
deriving DecidableEq

structure TransferPayload where
  id : String
  poolLocator : String
  tokenIndex : String
  uri : Option String
  amount : String
  signer : String
  data : String
  blockchain : BlockchainEvent
  «from» : Option String := none
  «to» : Option String := none
deriving DecidableEq

structure ApprovalPayload where
  id : String
  subject : String
  poolLocator : String
  operator : String
  approved : Bool
  signer : String
  data : String
  blockchain : BlockchainEvent
deriving DecidableEq

inductive MessageData where
  | pool (p : TokenPoolPayload)
  | transfer (p : TransferPayload)
  | approval (p : ApprovalPayload)
deriving DecidableEq

structure WebSocketMessage where
  event : String
  data : MessageData
deriving DecidableEq

/-- `formatBlockchainEventId`: zero-padded block number (12), transaction index
(6) and log index (6) joined by `/`; absent block/log indexes default to `0`.
`BigInt(event.transactionIndex)` can throw, modelled as `Except.error`. -/
def formatBlockchainEventId (event : Event) : Except String String :=
  match parseBigInt event.transactionIndex with
  | none => .error "SyntaxError"
  | some txIndex =>
    .ok (padStart (event.blockNumber.getD "0") 12 '0' ++ "/" ++
         padStart (bigIntToString txIndex) 6 '0' ++ "/" ++
         padStart (event.logIndex.getD "0") 6 '0')

/-- `stripParamsFromSignature`: `signature.substring(0, signature.indexOf('('))`
(the empty string when there is no parenthesis, since `indexOf` yields `-1`). -/
def stripParamsFromSignature (signature : String) : String :=
  if signature.data.contains '(' then String.mk (signature.data.takeWhile (fun c => c ≠ '('))
  else ""

/-- The common provenance envelope every notification carries. -/
def blockchainEnvelope (eventId : String) (event : Event) : BlockchainEvent :=
  { id := eventId,
    name := stripParamsFromSignature event.signature,
    location := "address=" ++ event.address,
    signature := event.signature,
    timestamp := event.timestamp,
    output := event.data,
    info := { blockNumber := event.blockNumber,
              transactionIndex := event.transactionIndex,
              transactionHash := event.transactionHash,
              logIndex := event.logIndex,
              address := event.address,
              signature := event.signature } }

/-- `transformTokenPoolCreationEvent`: accepts the event when the delivering
subscription is the base subscription or its pool locator matches the pool id
packed in the event's type id; emits one `token-pool` notification. -/
def transformTokenPoolCreationEvent (subName : String) (event : Event) :
    Except String (Option WebSocketMessage) :=
  match unpackTokenId event.data.type_id with
  | none => .error "SyntaxError"
  | some unpackedId =>
    let unpackedSub := unpackSubscriptionName subName
    let decodedData := decodeHex event.data.data
    match unpackedSub.poolLocator with
    | none => .ok none
    | some subLocator =>
      let poolLocator := unpackPoolLocator subLocator
      if poolLocator.poolId ≠ BASE_SUBSCRIPTION_NAME ∧ poolLocator.poolId ≠ unpackedId.poolId
      then .ok none
      else
        match formatBlockchainEventId event with
        | .error e => .error e
        | .ok eventId =>
          .ok (some
            { event := "token-pool",
              data := .pool
                { standard := TOKEN_STANDARD,
                  poolLocator := packPoolLocator unpackedId.poolId event.blockNumber,
                  type := if unpackedId.isFungible then "fungible" else "nonfungible",
                  signer := event.data.operator,
                  data := decodedData,
                  infoAddress := event.address,
                  infoTypeId := "0x" ++ (encodeHexIDForURI event.data.type_id).getD "",
                  blockchain := blockchainEnvelope eventId event } })

/-- The `commonData` literal of `transformTransferSingleEvent`, named so the
classification theorems can exhibit the payload. -/
def singleTransferCommon (getUri : String → String) (subLocator : String)
    (event : Event) (eventIndex : Option Nat) (unpackedId : UnpackedTokenId)
    (eventId : String) : TransferPayload :=
  { id := match eventIndex with
          | none => eventId
          | some i => eventId ++ "/" ++ padStart (natToDecimal i) 6 '0',
    poolLocator := subLocator,
    tokenIndex := unpackedId.tokenIndex,
    uri := if unpackedId.isFungible then none else some (getUri event.data.id),
    amount := event.data.value,
    signer := event.data.operator,
    data := decodeHex (event.inputArgsData.getD ""),
    blockchain := blockchainEnvelope eventId event }

/-- `transformTransferSingleEvent`: the pool-match guard, the zero-zero guard
and the mint/burn/transfer classification.  `getUri` stands for the awaited
`getTokenUri` chain query (cached URI template applied to the id). -/
def transformTransferSingleEvent (getUri : String → String) (subName : String)
    (event : Event) (eventIndex : Option Nat) :
    Except String (Option WebSocketMessage) :=
  match unpackTokenId event.data.id with
  | none => .error "SyntaxError"
  | some unpackedId =>
    let unpackedSub := unpackSubscriptionName subName
    let decodedData := decodeHex (event.inputArgsData.getD "")
    match unpackedSub.poolLocator with
    | none => .ok none
    | some subLocator =>
      let poolLocator := unpackPoolLocator subLocator
      if poolLocator.poolId ≠ unpackedId.poolId then .ok none
      else if event.data.«from» = ZERO_ADDRESS ∧ event.data.«to» = ZERO_ADDRESS then .ok none
      else
        match formatBlockchainEventId event with
        | .error e => .error e
        | .ok eventId =>
          let commonData : TransferPayload :=
            singleTransferCommon getUri subLocator event eventIndex unpackedId eventId
          if event.data.«from» = ZERO_ADDRESS then
            .ok (some { event := "token-mint",
                        data := .transfer { commonData with «to» := some event.data.«to» } })
          else if event.data.«to» = ZERO_ADDRESS then
            .ok (some { event := "token-burn",
                        data := .transfer { commonData with «from» := some event.data.«from» } })
          else
            .ok (some { event := "token-transfer",
                        data := .transfer
                          { commonData with
                            «from» := some event.data.«from»
                            «to» := some event.data.«to» } })

/-- The fresh single-transfer event the batch transform builds for member `i`
(the JS object literal carries only these five data fields). -/
def batchMemberEvent (event : Event) (i : Nat) : Event :=
  { event with data := { operator := event.data.operator,
                         «from» := event.data.«from»,
                         «to» := event.data.«to»,
                         id := event.data.ids.getD i "",
                         value := event.data.values.getD i "" } }

def transformTransferBatchEventAux (getUri : String → String) (subName : String)
    (event : Event) : List Nat → Except String (List WebSocketMessage)
  | [] => .ok []
  | i :: rest =>
    match transformTransferSingleEvent getUri subName (batchMemberEvent event i) (some i) with
    | .error e => .error e
    | .ok m =>
      match transformTransferBatchEventAux getUri subName event rest with
      | .error e => .error e
      | .ok ms => .ok (match m with | some msg => msg :: ms | none => ms)

/-- `transformTransferBatchEvent`: one single-transfer transform per parallel
`(id, value)` pair, indexed by position; undefined members are dropped. -/
def transformTransferBatchEvent (getUri : String → String) (subName : String)
    (event : Event) : Except String (List WebSocketMessage) :=
  transformTransferBatchEventAux getUri subName event (List.range event.data.ids.length)

/-- `transformApprovalForAllEvent`: one `token-approval` notification per
subscribed pool, with the pool id appended to the blockchain-event identity. -/
def transformApprovalForAllEvent (subName : String) (event : Event) :
    Except String (Option WebSocketMessage) :=
  let unpackedSub := unpackSubscriptionName subName
  let decodedData := decodeHex (event.inputArgsData.getD "")
  match unpackedSub.poolLocator with
  | none => .ok none
  | some subLocator =>
    let poolLocator := unpackPoolLocator subLocator
    match formatBlockchainEventId event with
    | .error e => .error e
    | .ok eventId =>
      .ok (some
        { event := "token-approval",
          data := .approval
            { id := eventId ++ "/" ++ poolLocator.poolId,
              subject := event.data.account ++ ":" ++ event.data.operator,
              poolLocator := subLocator,
              operator := event.data.operator,
              approved := event.data.approved,
              signer := event.data.account,
              data := decodedData,
              blockchain := blockchainEnvelope eventId event } })

/-- The messages handed to `process` for one transform result (`process` is
called with `undefined` for a dropped event, which the proxy surfaces as no
notification). -/
def processCalls : Option WebSocketMessage → List WebSocketMessage
  | none => []
  | some m => [m]

/-- `onEvent`: dispatch on the raw event signature; an unknown signature is
logged and produces nothing. -/
def onEvent (getUri : String → String) (subName : String) (event : Event) :
    Except String (List WebSocketMessage) :=
  if event.signature = tokenCreateEventSignatureOld ∨
      event.signature = tokenCreateEventSignature then
    Except.map processCalls (transformTokenPoolCreationEvent subName event)
  else if event.signature = transferSingleEventSignature then
    Except.map processCalls (transformTransferSingleEvent getUri subName event none)
  else if event.signature = approvalForAllEventSignature then
    Except.map processCalls (transformApprovalForAllEvent subName event)
  else if event.signature = transferBatchEventSignature then
    transformTransferBatchEvent getUri subName event
  else .ok []

/-! ## Pool-match guard, classification, absent-locator behaviour -/

theorem transformTransferSingle_absent_locator (getUri : String → String)
    (subName : String) (event : Event) (idx : Option Nat) (u : UnpackedTokenId)
    (hu : unpackTokenId event.data.id = some u)
    (hsub : (unpackSubscriptionName subName).poolLocator = none) :
    transformTransferSingleEvent getUri subName event idx = .ok none := by
  simp [transformTransferSingleEvent, hu, hsub]

/-- **C6.** A single-transfer event whose packed token id unpacks to a pool id
different from the pool id of the delivering subscription's pool locator yields
zero notifications. -/
theorem C6_pool_match_guard (getUri : String → String) (subName : String)
    (event : Event) (idx : Option Nat) (u : UnpackedTokenId) (loc : String)
    (hu : unpackTokenId event.data.id = some u)
    (hsub : (unpackSubscriptionName subName).poolLocator = some loc)
    (hne : (unpackPoolLocator loc).poolId ≠ u.poolId) :
    transformTransferSingleEvent getUri subName event idx = .ok none := by
  simp [transformTransferSingleEvent, hu, hsub, hne]

/-- **C6 witness**: subscription for pool `F1` receiving a transfer packed for
pool `F2` (token id `2 * 2^128`) produces nothing. -/
theorem C6_pool_match_guard_witness :
    (unpackTokenId "680564733841876926926749214863536422912" =
        some { isFungible := true, poolId := "F2", tokenIndex := "0" }) ∧
    ((unpackSubscriptionName "ns:inst:F1:TransferSingle").poolLocator = some "F1") ∧
    ((unpackPoolLocator "F1").poolId ≠ "F2") ∧
    transformTransferSingleEvent (fun _ => "") "ns:inst:F1:TransferSingle"
      { data := { id := "680564733841876926926749214863536422912" } } none = .ok none :=
  ⟨by decide, by decide, by decide,
   C6_pool_match_guard (fun _ => "") "ns:inst:F1:TransferSingle"
     { data := { id := "680564733841876926926749214863536422912" } } none
     { isFungible := true, poolId := "F2", tokenIndex := "0" } "F1"
     (by decide) (by decide) (by decide)⟩

/-- **C3.** A single-transfer event that passes the pool-match guard under a
parseable subscription name is classified by the zero-address convention:
`from = 0, to = 0` yields nothing; `from = 0` yields exactly one `token-mint`
carrying `to`; `to = 0` yields exactly one `token-burn` carrying `from`;
otherwise exactly one `token-transfer` carrying both. -/
theorem C3_transfer_classification (getUri : String → String) (subName : String)
    (event : Event) (idx : Option Nat) (u : UnpackedTokenId) (loc eid : String)
    (hu : unpackTokenId event.data.id = some u)
    (hsub : (unpackSubscriptionName subName).poolLocator = some loc)
    (hmatch : (unpackPoolLocator loc).poolId = u.poolId)
    (hfmt : formatBlockchainEventId event = .ok eid) :
    (event.data.«from» = ZERO_ADDRESS → event.data.«to» = ZERO_ADDRESS →
      transformTransferSingleEvent getUri subName event idx = .ok none)
    ∧ (event.data.«from» = ZERO_ADDRESS → event.data.«to» ≠ ZERO_ADDRESS →
      ∃ p : TransferPayload,
        transformTransferSingleEvent getUri subName event idx =
          .ok (some { event := "token-mint", data := .transfer p }) ∧
        p.«to» = some event.data.«to» ∧ p.«from» = none)
    ∧ (event.data.«from» ≠ ZERO_ADDRESS → event.data.«to» = ZERO_ADDRESS →
      ∃ p : TransferPayload,
        transformTransferSingleEvent getUri subName event idx =
          .ok (some { event := "token-burn", data := .transfer p }) ∧
        p.«from» = some event.data.«from» ∧ p.«to» = none)
    ∧ (event.data.«from» ≠ ZERO_ADDRESS → event.data.«to» ≠ ZERO_ADDRESS →
      ∃ p : TransferPayload,
        transformTransferSingleEvent getUri subName event idx =
          .ok (some { event := "token-transfer", data := .transfer p }) ∧
        p.«from» = some event.data.«from» ∧ p.«to» = some event.data.«to») := by
  refine ⟨fun h1 h2 => ?_, fun h1 h2 => ?_, fun h1 h2 => ?_, fun h1 h2 => ?_⟩
  · simp [transformTransferSingleEvent, hu, hsub, hmatch, h1, h2]
  · refine ⟨{ singleTransferCommon getUri loc event idx u eid with
        «to» := some event.data.«to» }, ?_, rfl, rfl⟩
    simp [transformTransferSingleEvent, hu, hsub, hmatch, h1, h2, hfmt]
  · refine ⟨{ singleTransferCommon getUri loc event idx u eid with
        «from» := some event.data.«from» }, ?_, rfl, rfl⟩
    simp [transformTransferSingleEvent, hu, hsub, hmatch, h1, h2, hfmt]
  · refine ⟨{ singleTransferCommon getUri loc event idx u eid with
        «from» := some event.data.«from», «to» := some event.data.«to» }, ?_, rfl, rfl⟩
    simp [transformTransferSingleEvent, hu, hsub, hmatch, h1, h2, hfmt]

/-- **C3 witness**: a mint (`from` zero, `to` nonzero) on pool `F1`
(token id `2^128`). -/
theorem C3_transfer_classification_witness :
    ∃ p : TransferPayload,
      transformTransferSingleEvent (fun _ => "") "ns:inst:F1:TransferSingle"
        { transactionIndex := "1",
          data := { id := "340282366920938463463374607431768211456",
                    «from» := ZERO_ADDRESS, «to» := "0xabc" } } none =
        .ok (some { event := "token-mint", data := .transfer p }) ∧
      p.«to» = some "0xabc" ∧ p.«from» = none := by
  have h := (C3_transfer_classification (fun _ => "") "ns:inst:F1:TransferSingle"
    { transactionIndex := "1",
      data := { id := "340282366920938463463374607431768211456",
                «from» := ZERO_ADDRESS, «to» := "0xabc" } } none
    { isFungible := true, poolId := "F1", tokenIndex := "0" } "F1" "000000000000/000001/000000"
    (by decide) (by decide) (by decide) (by decide)).2.1 rfl (by decide)
  exact h

theorem batchAux_ok_nil (getUri : String → String) (subName : String) (event : Event)
    (l : List Nat)
    (h : ∀ i ∈ l, transformTransferSingleEvent getUri subName
      (batchMemberEvent event i) (some i) = .ok none) :
    transformTransferBatchEventAux getUri subName event l = .ok [] := by
  induction l with
  | nil => rfl
  | cons i rest ih =>
    simp only [transformTransferBatchEventAux, h i (List.mem_cons_self i rest)]
    rw [ih (fun j hj => h j (List.mem_cons_of_mem i hj))]

/-- **C8.** Under a subscription name that unpacks with an absent pool locator,
no inbound event — pool-creation, single-transfer (including batch members) or
approval-changed — produces a notification or throws. -/
theorem C8_absent_locator_no_output (getUri : String → String) (subName : String)
    (hsub : (unpackSubscriptionName subName).poolLocator = none) :
    (∀ (event : Event) (idx : Option Nat) (u : UnpackedTokenId),
      unpackTokenId event.data.id = some u →
      transformTransferSingleEvent getUri subName event idx = .ok none)
    ∧ (∀ (event : Event) (u : UnpackedTokenId),
      unpackTokenId event.data.type_id = some u →
      transformTokenPoolCreationEvent subName event = .ok none)
    ∧ (∀ event : Event, transformApprovalForAllEvent subName event = .ok none)
    ∧ (∀ event : Event,
      (∀ id ∈ event.data.ids, (unpackTokenId id).isSome) →
      transformTransferBatchEvent getUri subName event = .ok []) := by
  refine ⟨fun event idx u hu =>
      transformTransferSingle_absent_locator getUri subName event idx u hu hsub,
    fun event u hu => by simp [transformTokenPoolCreationEvent, hu, hsub],
    fun event => by simp [transformApprovalForAllEvent, hsub],
    fun event hids => ?_⟩
  apply batchAux_ok_nil
  intro i hi
  have hlt : i < event.data.ids.length := List.mem_range.mp hi
  have hmem : event.data.ids.getD i "" ∈ event.data.ids := by
    rw [List.getD_eq_getElem event.data.ids "" hlt]
    exact List.getElem_mem hlt
  obtain ⟨u, hu⟩ := Option.isSome_iff_exists.mp (hids _ hmem)
  exact transformTransferSingle_absent_locator getUri subName
    (batchMemberEvent event i) (some i) u hu hsub

/-- **C8 witness**: the unparseable subscription name `garbage` silences a
single transfer, a pool creation, an approval and a batch member. -/
theorem C8_absent_locator_no_output_witness :
    ((unpackSubscriptionName "garbage").poolLocator = none) ∧
    transformTransferSingleEvent (fun _ => "") "garbage"
      { data := { id := "0" } } none = .ok none ∧
    transformTokenPoolCreationEvent "garbage"
      { data := { type_id := "0" } } = .ok none ∧
    transformApprovalForAllEvent "garbage" { data := {} } = .ok none ∧
    transformTransferBatchEvent (fun _ => "") "garbage"
      { data := { ids := ["0"], values := ["1"] } } = .ok [] := by
  have hsub : (unpackSubscriptionName "garbage").poolLocator = none := by decide
  have h := C8_absent_locator_no_output (fun _ => "") "garbage" hsub
  exact ⟨hsub,
    h.1 { data := { id := "0" } } none { isFungible := true, poolId := "F0", tokenIndex := "0" }
      (by decide),
    h.2.1 { data := { type_id := "0" } }
      { isFungible := true, poolId := "F0", tokenIndex := "0" } (by decide),
    h.2.2.1 { data := {} },
    h.2.2.2 { data := { ids := ["0"], values := ["1"] } } (by decide)⟩

/-- **C9.** The legacy `TokenCreate(address,uint256,bytes)` signature is
dispatched exactly like the current `TokenPoolCreation(address,uint256,bytes)`
signature: both route to the pool-creation transform, whose acceptance
(error / dropped / one notification) does not depend on the signature. -/
theorem C9_legacy_signature_dispatch (getUri : String → String) (subName : String)
    (event : Event) :
    onEvent getUri subName { event with signature := tokenCreateEventSignatureOld } =
      Except.map processCalls (transformTokenPoolCreationEvent subName
        { event with signature := tokenCreateEventSignatureOld })
    ∧ onEvent getUri subName { event with signature := tokenCreateEventSignature } =
      Except.map processCalls (transformTokenPoolCreationEvent subName
        { event with signature := tokenCreateEventSignature })
    ∧ Except.map Option.isSome (transformTokenPoolCreationEvent subName
        { event with signature := tokenCreateEventSignatureOld }) =
      Except.map Option.isSome (transformTokenPoolCreationEvent subName
        { event with signature := tokenCreateEventSignature }) := by
  refine ⟨by simp [onEvent], by simp [onEvent], ?_⟩
  simp only [transformTokenPoolCreationEvent]
  cases unpackTokenId event.data.type_id with
  | none => rfl
  | some u =>
    cases (unpackSubscriptionName subName).poolLocator with
    | none => rfl
    | some loc =>
      simp only []
      split <;> [rfl; skip]
      cases hfmt : formatBlockchainEventId
          { event with signature := tokenCreateEventSignatureOld } with
      | error e =>
        have hfmt' : formatBlockchainEventId
            { event with signature := tokenCreateEventSignature } = .error e := hfmt
        simp [hfmt']
      | ok eid =>
        have hfmt' : formatBlockchainEventId
            { event with signature := tokenCreateEventSignature } = .ok eid := hfmt
        simp [hfmt', Except.map]

/-! ## Batch expansion (C4) -/

/-- The blockchain-event identity carried by a transfer-family notification. -/
def messageTransferId : WebSocketMessage → String
  | ⟨_, MessageData.transfer p⟩ => p.id
  | _ => ""

theorem format_batchMemberEvent (event : Event) (i : Nat) :
    formatBlockchainEventId (batchMemberEvent event i) = formatBlockchainEventId event := rfl

theorem transformTransferSingle_ok_some_id (getUri : String → String) (subName : String)
    (event : Event) (i : Nat) (m : WebSocketMessage)
    (h : transformTransferSingleEvent getUri subName event (some i) = .ok (some m)) :
    ∃ eid, formatBlockchainEventId event = .ok eid ∧
      messageTransferId m = eid ++ "/" ++ padStart (natToDecimal i) 6 '0' := by
  rcases hu : unpackTokenId event.data.id with _ | u
  · simp [transformTransferSingleEvent, hu] at h
  simp only [transformTransferSingleEvent, hu] at h
  rcases hsub : (unpackSubscriptionName subName).poolLocator with _ | loc
  · simp [hsub] at h
  simp only [hsub] at h
  by_cases hne : (unpackPoolLocator loc).poolId ≠ u.poolId
  · rw [if_pos hne] at h
    simp at h
  rw [if_neg hne] at h
  by_cases hzz : event.data.«from» = ZERO_ADDRESS ∧ event.data.«to» = ZERO_ADDRESS
  · rw [if_pos hzz] at h
    simp at h
  rw [if_neg hzz] at h
  rcases hfmt : formatBlockchainEventId event with e | eid
  · simp [hfmt] at h
  simp only [hfmt] at h
  refine ⟨eid, rfl, ?_⟩
  by_cases h1 : event.data.«from» = ZERO_ADDRESS
  · rw [if_pos h1] at h
    injection h with ha
    injection ha with hb
    subst hb
    rfl
  rw [if_neg h1] at h
  by_cases h2 : event.data.«to» = ZERO_ADDRESS
  · rw [if_pos h2] at h
    injection h with ha
    injection ha with hb
    subst hb
    rfl
  rw [if_neg h2] at h
  injection h with ha
  injection ha with hb
  subst hb
  rfl

theorem batchAux_mem (getUri : String → String) (subName : String) (event : Event)
    (l : List Nat) (msgs : List WebSocketMessage)
    (h : transformTransferBatchEventAux getUri subName event l = .ok msgs) :
    ∀ m ∈ msgs, ∃ i ∈ l,
      transformTransferSingleEvent getUri subName (batchMemberEvent event i) (some i) =
        .ok (some m) := by
  induction l generalizing msgs with
  | nil =>
    injection h with h1
    subst h1
    intro m hm
    simp at hm
  | cons i rest ih =>
    simp only [transformTransferBatchEventAux] at h
    rcases hone : transformTransferSingleEvent getUri subName
        (batchMemberEvent event i) (some i) with e | mo
    · simp [hone] at h
    simp only [hone] at h
    rcases haux : transformTransferBatchEventAux getUri subName event rest with e | ms
    · simp [haux] at h
    simp only [haux] at h
    cases mo with
    | none =>
      injection h with h1
      subst h1
      intro m hm
      obtain ⟨j, hj, hs⟩ := ih ms haux m hm
      exact ⟨j, List.mem_cons_of_mem _ hj, hs⟩
    | some msg =>
      injection h with h1
      subst h1
      intro m hm
      rcases List.mem_cons.mp hm with rfl | hm'
      · exact ⟨i, List.mem_cons_self _ _, hone⟩
      · obtain ⟨j, hj, hs⟩ := ih ms haux m hm'
        exact ⟨j, List.mem_cons_of_mem _ hj, hs⟩

theorem batchAux_length_le (getUri : String → String) (subName : String) (event : Event)
    (l : List Nat) (msgs : List WebSocketMessage)
    (h : transformTransferBatchEventAux getUri subName event l = .ok msgs) :
    msgs.length ≤ l.length := by
  induction l generalizing msgs with
  | nil =>
    injection h with h1
    subst h1
    simp
  | cons i rest ih =>
    simp only [transformTransferBatchEventAux] at h
    rcases hone : transformTransferSingleEvent getUri subName
        (batchMemberEvent event i) (some i) with e | mo
    · simp [hone] at h
    simp only [hone] at h
    rcases haux : transformTransferBatchEventAux getUri subName event rest with e | ms
    · simp [haux] at h
    simp only [haux] at h
    cases mo with
    | none =>
      injection h with h1
      subst h1
      have := ih ms haux
      simp only [List.length_cons]
      omega
    | some msg =>
      injection h with h1
      subst h1
      have := ih ms haux
      simp only [List.length_cons]
      omega

theorem batchAux_ids_sublist (getUri : String → String) (subName : String) (event : Event)
    (eid : String) (hfmt : formatBlockchainEventId event = .ok eid)
    (l : List Nat) (msgs : List WebSocketMessage)
    (h : transformTransferBatchEventAux getUri subName event l = .ok msgs) :
    (msgs.map messageTransferId).Sublist
      (l.map (fun i => eid ++ "/" ++ padStart (natToDecimal i) 6 '0')) := by
  induction l generalizing msgs with
  | nil =>
    injection h with h1
    subst h1
    simp
  | cons i rest ih =>
    simp only [transformTransferBatchEventAux] at h
    rcases hone : transformTransferSingleEvent getUri subName
        (batchMemberEvent event i) (some i) with e | mo
    · simp [hone] at h
    simp only [hone] at h
    rcases haux : transformTransferBatchEventAux getUri subName event rest with e | ms
    · simp [haux] at h
    simp only [haux] at h
    cases mo with
    | none =>
      injection h with h1
      subst h1
      exact List.Sublist.cons _ (ih ms haux)
    | some msg =>
      injection h with h1
      subst h1
      obtain ⟨eid', hfmt', hid⟩ :=
        transformTransferSingle_ok_some_id getUri subName (batchMemberEvent event i) i msg hone
      rw [format_batchMemberEvent, hfmt] at hfmt'
      injection hfmt' with heid
      subst heid
      simp only [List.map_cons, hid]
      exact List.Sublist.cons₂ _ (ih ms haux)

theorem subIndexId_injective (eid : String) {a b : Nat}
    (h : eid ++ "/" ++ padStart (natToDecimal a) 6 '0' =
      eid ++ "/" ++ padStart (natToDecimal b) 6 '0') : a = b := by
  apply padStart_natToDecimal_injective (w := 6)
  apply String.ext
  have hd := congrArg String.data h
  simp only [String.data_append, List.append_assoc] at hd
  exact List.append_cancel_left (List.append_cancel_left hd)

/-- **C4.** A batch-transfer event with `N` parallel `(id, value)` pairs yields
at most `N` notifications, each sourced from the single-transfer transform of
one pair `i` and carrying the base blockchain-event identity with `/` and the
zero-padded sub-index `i` appended, so the identities are pairwise distinct
within the batch; dropped pairs are silently omitted. -/
theorem C4_batch_expansion (getUri : String → String) (subName : String)
    (event : Event) (msgs : List WebSocketMessage)
    (h : transformTransferBatchEvent getUri subName event = .ok msgs) :
    msgs.length ≤ event.data.ids.length
    ∧ (∀ m ∈ msgs, ∃ i, i < event.data.ids.length ∧ ∃ eid,
        formatBlockchainEventId event = .ok eid ∧
        transformTransferSingleEvent getUri subName (batchMemberEvent event i) (some i) =
          .ok (some m) ∧
        messageTransferId m = eid ++ "/" ++ padStart (natToDecimal i) 6 '0')
    ∧ msgs.Pairwise (fun m₁ m₂ => messageTransferId m₁ ≠ messageTransferId m₂) := by
  unfold transformTransferBatchEvent at h
  refine ⟨?_, ?_, ?_⟩
  · have := batchAux_length_le getUri subName event _ msgs h
    simpa using this
  · intro m hm
    obtain ⟨i, hi, hs⟩ := batchAux_mem getUri subName event _ msgs h m hm
    obtain ⟨eid, hfmt, hid⟩ :=
      transformTransferSingle_ok_some_id getUri subName (batchMemberEvent event i) i m hs
    rw [format_batchMemberEvent] at hfmt
    exact ⟨i, List.mem_range.mp hi, eid, hfmt, hs, hid⟩
  · rcases hfmt : formatBlockchainEventId event with e | eid
    · have hnil : msgs = [] := by
        cases msgs with
        | nil => rfl
        | cons m ms =>
          obtain ⟨i, hi, hs⟩ :=
            batchAux_mem getUri subName event _ _ h m (List.mem_cons_self _ _)
          obtain ⟨eid, hfmt', _⟩ :=
            transformTransferSingle_ok_some_id getUri subName (batchMemberEvent event i) i m hs
          rw [format_batchMemberEvent, hfmt] at hfmt'
          cases hfmt'
      subst hnil
      exact List.Pairwise.nil
    · have hsub := batchAux_ids_sublist getUri subName event eid hfmt _ msgs h
      have hinj : Function.Injective
          (fun i : Nat => eid ++ "/" ++ padStart (natToDecimal i) 6 '0') :=
        fun a b hab => subIndexId_injective eid hab
      have hnodup := (List.nodup_range event.data.ids.length).map hinj
      have hmsgs := List.Nodup.sublist hsub hnodup
      exact List.pairwise_map.mp hmsgs

/-- A concrete one-pair batch event for the C4 witness. -/
def c4WitnessEvent : Event :=
  { transactionIndex := "1",
    data := { ids := ["0"], values := ["5"], «from» := ZERO_ADDRESS, «to» := "0xabc" } }

/-- **C4 witness**: a one-pair batch whose member is dropped by the pool-match
guard yields the empty notification list, trivially satisfying the bounds. -/
theorem C4_batch_expansion_witness :
    (transformTransferBatchEvent (fun _ => "") "ns:inst:F1:TransferBatch"
      c4WitnessEvent = .ok []) ∧
    (([] : List WebSocketMessage).length ≤ c4WitnessEvent.data.ids.length
    ∧ (∀ m ∈ ([] : List WebSocketMessage), ∃ i,
        i < c4WitnessEvent.data.ids.length ∧ ∃ eid,
        formatBlockchainEventId c4WitnessEvent = .ok eid ∧
        transformTransferSingleEvent (fun _ => "") "ns:inst:F1:TransferBatch"
          (batchMemberEvent c4WitnessEvent i) (some i) = .ok (some m) ∧
        messageTransferId m = eid ++ "/" ++ padStart (natToDecimal i) 6 '0')
    ∧ ([] : List WebSocketMessage).Pairwise
        (fun m₁ m₂ => messageTransferId m₁ ≠ messageTransferId m₂)) :=
  ⟨by decide,
   C4_batch_expansion (fun _ => "") "ns:inst:F1:TransferBatch"
     c4WitnessEvent [] (by decide)⟩

/-! ## `migrationCheck` (C5)

The stream-discovery part of `migrationCheck` (network calls, legacy stream
names) is factored out: the audited core below receives the discovered stream's
id and the transport's subscription list, and reproduces the loop that groups
non-base subscriptions by pool locator and compares each group against the four
expected event kinds. -/

structure EventStreamSubscriptionRef where
  name : String
  stream : String
deriving DecidableEq

/-- One step of the `foundEvents` map construction: JS `Map.get` + push /
`Map.set`, on an insertion-ordered association list. -/
def insertFoundEvent (found : List (String × List String)) (key : String) (ev : String) :
    List (String × List String) :=
  if found.any (fun kv => kv.1 == key) then
    found.map (fun kv => if kv.1 = key then (kv.1, kv.2 ++ [ev]) else kv)
  else found ++ [(key, [ev])]

/-- The grouping loop: `none` models the early `return true` on the first
subscription whose name does not unpack. -/
def collectFoundEvents : List EventStreamSubscriptionRef →
    List (String × List String) → Option (List (String × List String))
  | [], found => some found
  | sub :: rest, found =>
    match (unpackSubscriptionName sub.name).poolLocator,
        (unpackSubscriptionName sub.name).event with
    | some loc, some ev => collectFoundEvents rest (insertFoundEvent found loc ev)
    | _, _ => none

/-- The per-pool count comparison: drift unless the group has exactly as many
events as expected and every expected event occurs in it. -/
def subscriptionGroupDrifts (events : List String) : Bool :=
  !((ALL_SUBSCRIBED_EVENTS.length == events.length) &&
    ALL_SUBSCRIBED_EVENTS.all (fun ev => events.contains ev))

/-- The subscriptions audited: those on the discovered stream other than the
base subscription. -/
def migrationFilteredSubs (topic instancePath streamId : String)
    (allSubscriptions : List EventStreamSubscriptionRef) :
    List EventStreamSubscriptionRef :=
  allSubscriptions.filter (fun s => s.stream == streamId &&
    s.name != packSubscriptionName topic instancePath BASE_SUBSCRIPTION_NAME tokenCreateEvent)

/-- The audit core of `migrationCheck`: `true` means drift detected. -/
def migrationCheckSubscriptions (topic instancePath streamId : String)
    (allSubscriptions : List EventStreamSubscriptionRef) : Bool :=
  let subscriptions := migrationFilteredSubs topic instancePath streamId allSubscriptions
  if subscriptions.isEmpty then false
  else
    match collectFoundEvents subscriptions [] with
    | none => true
    | some found => found.any (fun kv => subscriptionGroupDrifts kv.2)

/-- The event kinds subscribed for pool locator `p`, in subscription order
(the reference reading of the grouped map's entries). -/
def poolGroupEvents (subs : List EventStreamSubscriptionRef) (p : String) : List String :=
  subs.filterMap (fun s =>
    match (unpackSubscriptionName s.name).poolLocator,
        (unpackSubscriptionName s.name).event with
    | some loc, some ev => if loc = p then some ev else none
    | _, _ => none)

/-- JS `Map.get` on the association list. -/
def lookupGroup (found : List (String × List String)) (p : String) :
    Option (List String) :=
  (found.find? (fun kv => kv.1 == p)).map (fun kv => kv.2)

theorem lookupGroup_cons_hit (q : String) (es : List String)
    (r : List (String × List String)) (p : String) (h : (q == p) = true) :
    lookupGroup ((q, es) :: r) p = some es := by
  simp only [lookupGroup]
  rw [List.find?_cons_of_pos _ (by simpa using h)]
  rfl

theorem lookupGroup_cons_miss (q : String) (es : List String)
    (r : List (String × List String)) (p : String) (h : (q == p) = false) :
    lookupGroup ((q, es) :: r) p = lookupGroup r p := by
  simp only [lookupGroup]
  rw [List.find?_cons_of_neg _ (by simp_all)]

theorem lookupGroup_map_update (rest : List (String × List String)) (k p ev : String)
    (hpk : p ≠ k) :
    lookupGroup (rest.map (fun kv => if kv.1 = k then (kv.1, kv.2 ++ [ev]) else kv)) p =
      lookupGroup rest p := by
  induction rest with
  | nil => rfl
  | cons a r ih =>
    obtain ⟨q, es⟩ := a
    by_cases hak : q = k
    · have hap : (q == p) = false := by
        subst hak
        simpa using Ne.symm hpk
      simp only [List.map_cons]
      rw [if_pos hak]
      rw [lookupGroup_cons_miss q (es ++ [ev]) _ p hap, lookupGroup_cons_miss q es r p hap]
      exact ih
    · simp only [List.map_cons]
      rw [if_neg hak]
      by_cases hap : (q == p) = true
      · rw [lookupGroup_cons_hit q es _ p hap, lookupGroup_cons_hit q es r p hap]
      · rw [lookupGroup_cons_miss q es _ p (by simpa using hap),
          lookupGroup_cons_miss q es r p (by simpa using hap)]
        exact ih

theorem insertFoundEvent_cons_ne (q : String) (es : List String)
    (rest : List (String × List String)) (k ev : String) (h : q ≠ k) :
    insertFoundEvent ((q, es) :: rest) k ev = (q, es) :: insertFoundEvent rest k ev := by
  by_cases hany : rest.any (fun kv => kv.1 == k)
  · simp [insertFoundEvent, h, hany]
  · simp [insertFoundEvent, h, hany]

theorem lookupGroup_insert (found : List (String × List String)) (k ev p : String) :
    lookupGroup (insertFoundEvent found k ev) p =
      if p = k then some ((lookupGroup found k).getD [] ++ [ev])
      else lookupGroup found p := by
  induction found with
  | nil =>
    by_cases hpk : p = k
    · subst hpk
      simp [insertFoundEvent, lookupGroup]
    · have hkp : (k == p) = false := by simpa using Ne.symm hpk
      simp only [insertFoundEvent, List.any_nil, Bool.false_eq_true, if_neg,
        List.nil_append, if_neg hpk]
      show lookupGroup [(k, [ev])] p = lookupGroup [] p
      rw [lookupGroup_cons_miss k [ev] [] p hkp]
  | cons a r ih =>
    obtain ⟨q, es⟩ := a
    by_cases hqk : q = k
    · subst hqk
      have hany : (((q, es) :: r).any (fun kv => kv.1 == q)) = true := by simp
      simp only [insertFoundEvent, hany, if_pos, List.map_cons, if_pos rfl]
      by_cases hpk : p = q
      · subst hpk
        rw [if_pos rfl, lookupGroup_cons_hit p (es ++ [ev]) _ p (by simp),
          lookupGroup_cons_hit p es r p (by simp)]
        rfl
      · have hqp : (q == p) = false := by simpa using Ne.symm hpk
        rw [if_neg hpk, lookupGroup_cons_miss q (es ++ [ev]) _ p hqp,
          lookupGroup_cons_miss q es r p hqp]
        exact lookupGroup_map_update r q p ev hpk
    · rw [insertFoundEvent_cons_ne q es r k ev hqk]
      have hqkne : (q == k) = false := by simpa using hqk
      by_cases hqp : (q == p) = true
      · have hp : q = p := by simpa using hqp
        subst hp
        rw [lookupGroup_cons_hit q es _ q (by simp), if_neg hqk,
          lookupGroup_cons_hit q es r q (by simp)]
      · have hqpne : (q == p) = false := by simpa using hqp
        rw [lookupGroup_cons_miss q es _ p hqpne, ih,
          lookupGroup_cons_miss q es r k hqkne, lookupGroup_cons_miss q es r p hqpne]

/-- Appending a group fragment to an optional existing group. -/
def combineGroup : Option (List String) → List String → Option (List String)
  | none, [] => none
  | none, es => some es
  | some xs, es => some (xs ++ es)

theorem collect_none_of_unparseable (l : List EventStreamSubscriptionRef)
    (s : EventStreamSubscriptionRef) (hs : s ∈ l)
    (hbad : (unpackSubscriptionName s.name).poolLocator = none ∨
      (unpackSubscriptionName s.name).event = none) :
    ∀ acc, collectFoundEvents l acc = none := by
  induction l with
  | nil => cases hs
  | cons a rest ih =>
    intro acc
    rcases List.mem_cons.mp hs with rfl | hmem
    · rcases hloc : (unpackSubscriptionName s.name).poolLocator with _ | loc
      · simp [collectFoundEvents, hloc]
      · rcases hev : (unpackSubscriptionName s.name).event with _ | ev
        · simp [collectFoundEvents, hloc, hev]
        · rw [hloc] at hbad
          rw [hev] at hbad
          simp at hbad
    · rcases hloc : (unpackSubscriptionName a.name).poolLocator with _ | loc
      · simp [collectFoundEvents, hloc]
      · rcases hev : (unpackSubscriptionName a.name).event with _ | ev
        · simp [collectFoundEvents, hloc, hev]
        · simp only [collectFoundEvents, hloc, hev]
          exact ih hmem _

theorem collect_some_of_parseable (l : List EventStreamSubscriptionRef)
    (hgood : ∀ s ∈ l, (unpackSubscriptionName s.name).poolLocator.isSome ∧
      (unpackSubscriptionName s.name).event.isSome) :
    ∀ acc, ∃ found, collectFoundEvents l acc = some found := by
  induction l with
  | nil => exact fun acc => ⟨acc, rfl⟩
  | cons a rest ih =>
    intro acc
    obtain ⟨h1, h2⟩ := hgood a (List.mem_cons_self _ _)
    obtain ⟨loc, hloc⟩ := Option.isSome_iff_exists.mp h1
    obtain ⟨ev, hev⟩ := Option.isSome_iff_exists.mp h2
    simp only [collectFoundEvents, hloc, hev]
    exact ih (fun s hs => hgood s (List.mem_cons_of_mem _ hs)) _

theorem combineGroup_nil (o : Option (List String)) : combineGroup o [] = o := by
  cases o with
  | none => rfl
  | some xs => simp [combineGroup]

theorem combineGroup_some (xs es : List String) :
    combineGroup (some xs) es = some (xs ++ es) := rfl

theorem combineGroup_none_cons (e : String) (es : List String) :
    combineGroup none (e :: es) = some (e :: es) := rfl

theorem collect_lookup (l : List EventStreamSubscriptionRef) :
    ∀ acc found, collectFoundEvents l acc = some found →
      ∀ p, lookupGroup found p =
        combineGroup (lookupGroup acc p) (poolGroupEvents l p) := by
  induction l with
  | nil =>
    intro acc found h p
    injection h with h1
    subst h1
    simp [poolGroupEvents, combineGroup_nil]
  | cons a rest ih =>
    intro acc found h p
    rcases hloc : (unpackSubscriptionName a.name).poolLocator with _ | loc
    · rw [collectFoundEvents, hloc] at h
      simp at h
    rcases hev : (unpackSubscriptionName a.name).event with _ | ev
    · rw [collectFoundEvents, hloc, hev] at h
      simp at h
    rw [collectFoundEvents, hloc, hev] at h
    have hrec := ih (insertFoundEvent acc loc ev) found h p
    rw [hrec, lookupGroup_insert]
    simp only [poolGroupEvents, List.filterMap_cons, hloc, hev]
    by_cases hploc : p = loc
    · subst hploc
      rw [if_pos rfl, if_pos rfl, combineGroup_some]
      cases hacc : lookupGroup acc p with
      | none =>
        rw [combineGroup_none_cons]
        simp
      | some xs =>
        rw [combineGroup_some]
        simp
    · rw [if_neg hploc, if_neg (fun h => hploc h.symm)]

theorem combineGroup_none_of_ne_nil {es : List String} (h : es ≠ []) :
    combineGroup none es = some es := by
  cases es with
  | nil => cases h rfl
  | cons a l => rfl

theorem insertFoundEvent_keys_nodup (found : List (String × List String)) (k ev : String)
    (h : (found.map Prod.fst).Nodup) :
    ((insertFoundEvent found k ev).map Prod.fst).Nodup := by
  by_cases hany : found.any (fun kv => kv.1 == k)
  · have hkeys : (insertFoundEvent found k ev).map Prod.fst = found.map Prod.fst := by
      simp only [insertFoundEvent, hany, if_pos, List.map_map]
      apply List.map_congr_left
      intro kv _
      by_cases hk : kv.1 = k <;> simp [hk]
    rw [hkeys]
    exact h
  · have hk : k ∉ found.map Prod.fst := by
      simp only [List.any_eq_true, beq_iff_eq] at hany
      simp only [List.mem_map]
      rintro ⟨kv, hkv, rfl⟩
      exact hany ⟨kv, hkv, rfl⟩
    have hrw : insertFoundEvent found k ev = found ++ [(k, [ev])] := by
      simp [insertFoundEvent, hany]
    rw [hrw]
    simp only [List.map_append, List.map_cons, List.map_nil]
    exact List.Nodup.append h (List.nodup_singleton k)
      (fun a ha hb => by simp at hb; subst hb; exact hk ha)

theorem collect_keys_nodup (l : List EventStreamSubscriptionRef) :
    ∀ acc found, (acc.map Prod.fst).Nodup → collectFoundEvents l acc = some found →
      (found.map Prod.fst).Nodup := by
  induction l with
  | nil =>
    intro acc found hacc h
    injection h with h1
    subst h1
    exact hacc
  | cons a rest ih =>
    intro acc found hacc h
    rcases hloc : (unpackSubscriptionName a.name).poolLocator with _ | loc
    · rw [collectFoundEvents, hloc] at h
      simp at h
    rcases hev : (unpackSubscriptionName a.name).event with _ | ev
    · rw [collectFoundEvents, hloc, hev] at h
      simp at h
    rw [collectFoundEvents, hloc, hev] at h
    exact ih _ found (insertFoundEvent_keys_nodup acc loc ev hacc) h

theorem lookupGroup_of_mem_nodup (found : List (String × List String))
    (kv : String × List String) (h : kv ∈ found)
    (hnd : (found.map Prod.fst).Nodup) :
    lookupGroup found kv.1 = some kv.2 := by
  induction found with
  | nil => cases h
  | cons a r ih =>
    rw [List.map_cons] at hnd
    have hnd' := List.nodup_cons.mp hnd
    rcases List.mem_cons.mp h with rfl | hmem
    · exact lookupGroup_cons_hit kv.1 kv.2 r kv.1 (by simp)
    · have hne : (a.1 == kv.1) = false := by
        have hk : kv.1 ∈ r.map Prod.fst := List.mem_map.mpr ⟨kv, hmem, rfl⟩
        simp only [beq_eq_false_iff_ne, ne_eq]
        intro hEq
        rw [hEq] at hnd'
        exact hnd'.1 hk
      rw [lookupGroup_cons_miss a.1 a.2 r kv.1 hne]
      exact ih hmem hnd'.2

theorem mem_of_lookupGroup (found : List (String × List String)) (p : String)
    (es : List String) (h : lookupGroup found p = some es) : (p, es) ∈ found := by
  induction found with
  | nil => simp [lookupGroup] at h
  | cons a r ih =>
    by_cases hap : (a.1 == p) = true
    · rw [lookupGroup_cons_hit a.1 a.2 r p hap] at h
      injection h with h1
      have hp : a.1 = p := by simpa using hap
      subst hp
      subst h1
      exact List.mem_cons_self _ _
    · rw [lookupGroup_cons_miss a.1 a.2 r p (by simpa using hap)] at h
      exact List.mem_cons_of_mem _ (ih h)

theorem exists_contributor (subs : List EventStreamSubscriptionRef) (p : String)
    (h : poolGroupEvents subs p ≠ []) :
    ∃ s ∈ subs, (unpackSubscriptionName s.name).poolLocator = some p := by
  induction subs with
  | nil => cases h rfl
  | cons a rest ih =>
    rcases hloc : (unpackSubscriptionName a.name).poolLocator with _ | loc
    · rw [poolGroupEvents, List.filterMap_cons] at h
      simp only [hloc] at h
      obtain ⟨s, hs, hsp⟩ := ih h
      exact ⟨s, List.mem_cons_of_mem _ hs, hsp⟩
    rcases hev : (unpackSubscriptionName a.name).event with _ | ev
    · rw [poolGroupEvents, List.filterMap_cons] at h
      simp only [hloc, hev] at h
      obtain ⟨s, hs, hsp⟩ := ih h
      exact ⟨s, List.mem_cons_of_mem _ hs, hsp⟩
    by_cases hlp : loc = p
    · exact ⟨a, List.mem_cons_self _ _, by rw [hloc, hlp]⟩
    · rw [poolGroupEvents, List.filterMap_cons] at h
      simp only [hloc, hev, if_neg hlp] at h
      obtain ⟨s, hs, hsp⟩ := ih h
      exact ⟨s, List.mem_cons_of_mem _ hs, hsp⟩

theorem group_ne_nil_of_mem (subs : List EventStreamSubscriptionRef)
    (s : EventStreamSubscriptionRef) (hs : s ∈ subs) (loc ev : String)
    (hloc : (unpackSubscriptionName s.name).poolLocator = some loc)
    (hev : (unpackSubscriptionName s.name).event = some ev) :
    poolGroupEvents subs loc ≠ [] := by
  intro hempty
  have hmem : ev ∈ poolGroupEvents subs loc :=
    List.mem_filterMap.mpr ⟨s, hs, by simp [hloc, hev]⟩
  rw [hempty] at hmem
  cases hmem

/-- **C5.** The migration check reports drift (`true`) whenever any non-base
subscription name on the discovered stream is unparseable, and whenever some
pool's group of subscribed event kinds is not exactly the four expected kinds
(any omission or duplicate fails the count comparison); it reports no drift
(`false`) when every pool's group passes the comparison, and no drift when the
stream has no subscriptions at all. -/
theorem C5_migration_check (topic instancePath streamId : String)
    (allSubscriptions : List EventStreamSubscriptionRef) :
    ((∃ s ∈ migrationFilteredSubs topic instancePath streamId allSubscriptions,
        (unpackSubscriptionName s.name).poolLocator = none ∨
        (unpackSubscriptionName s.name).event = none) →
      migrationCheckSubscriptions topic instancePath streamId allSubscriptions = true)
    ∧ ((∀ s ∈ migrationFilteredSubs topic instancePath streamId allSubscriptions,
          (unpackSubscriptionName s.name).poolLocator.isSome ∧
          (unpackSubscriptionName s.name).event.isSome) →
       (∃ s ∈ migrationFilteredSubs topic instancePath streamId allSubscriptions,
          subscriptionGroupDrifts (poolGroupEvents
            (migrationFilteredSubs topic instancePath streamId allSubscriptions)
            ((unpackSubscriptionName s.name).poolLocator.getD "")) = true) →
      migrationCheckSubscriptions topic instancePath streamId allSubscriptions = true)
    ∧ ((∀ s ∈ migrationFilteredSubs topic instancePath streamId allSubscriptions,
          (unpackSubscriptionName s.name).poolLocator.isSome ∧
          (unpackSubscriptionName s.name).event.isSome) →
       (∀ s ∈ migrationFilteredSubs topic instancePath streamId allSubscriptions,
          subscriptionGroupDrifts (poolGroupEvents
            (migrationFilteredSubs topic instancePath streamId allSubscriptions)
            ((unpackSubscriptionName s.name).poolLocator.getD "")) = false) →
      migrationCheckSubscriptions topic instancePath streamId allSubscriptions = false)
    ∧ (migrationFilteredSubs topic instancePath streamId allSubscriptions = [] →
      migrationCheckSubscriptions topic instancePath streamId allSubscriptions = false) := by
  set S := migrationFilteredSubs topic instancePath streamId allSubscriptions with hS
  refine ⟨?_, ?_, ?_, ?_⟩
  · rintro ⟨s, hs, hbad⟩
    have hnone := collect_none_of_unparseable S s hs hbad []
    have hne : S.isEmpty = false := by
      simp [List.isEmpty_iff, List.ne_nil_of_mem hs]
    simp [migrationCheckSubscriptions, ← hS, hne, hnone]
  · rintro hgood ⟨s, hs, hdrift⟩
    obtain ⟨found, hfound⟩ := collect_some_of_parseable S hgood []
    obtain ⟨hloc', hev'⟩ := hgood s hs
    obtain ⟨loc, hloc⟩ := Option.isSome_iff_exists.mp hloc'
    obtain ⟨ev, hev⟩ := Option.isSome_iff_exists.mp hev'
    rw [hloc] at hdrift
    simp only [Option.getD_some] at hdrift
    have hne : poolGroupEvents S loc ≠ [] := group_ne_nil_of_mem S s hs loc ev hloc hev
    have hlook := collect_lookup S [] found hfound loc
    rw [show lookupGroup [] loc = none from rfl, combineGroup_none_of_ne_nil hne] at hlook
    have hmem := mem_of_lookupGroup found loc _ hlook
    have hempty : S.isEmpty = false := by
      simp [List.isEmpty_iff, List.ne_nil_of_mem hs]
    have hany : (found.any (fun kv => subscriptionGroupDrifts kv.2)) = true :=
      List.any_eq_true.mpr ⟨(loc, poolGroupEvents S loc), hmem, hdrift⟩
    simp [migrationCheckSubscriptions, ← hS, hempty, hfound, hany]
  · intro hgood hok
    by_cases hempty : S.isEmpty
    · simp [migrationCheckSubscriptions, ← hS, hempty]
    · obtain ⟨found, hfound⟩ := collect_some_of_parseable S hgood []
      have hany : (found.any (fun kv => subscriptionGroupDrifts kv.2)) = false := by
        rw [List.any_eq_false]
        intro kv hkv
        have hnd := collect_keys_nodup S [] found (by simp) hfound
        have hlook := lookupGroup_of_mem_nodup found kv hkv hnd
        have hcomb := collect_lookup S [] found hfound kv.1
        rw [hlook, show lookupGroup [] kv.1 = none from rfl] at hcomb
        rcases hgrp : poolGroupEvents S kv.1 with _ | ⟨e, es⟩
        · rw [hgrp] at hcomb
          simp [combineGroup] at hcomb
        · rw [hgrp, combineGroup_none_of_ne_nil (by simp)] at hcomb
          injection hcomb with h2
          obtain ⟨s, hs, hsloc⟩ := exists_contributor S kv.1 (by rw [hgrp]; simp)
          have := hok s hs
          rw [hsloc] at this
          simp only [Option.getD_some] at this
          rw [← hgrp] at h2
          rw [h2]
          simp [this]
      simp only [Bool.not_eq_true] at hempty
      simp [migrationCheckSubscriptions, ← hS, hempty, hfound, hany]
  · intro hnil
    have hempty : S.isEmpty = true := by simp [hnil]
    simp [migrationCheckSubscriptions, ← hS, hempty]

/-- **C5 witness**: drift on an unparseable name, drift on an incomplete pool
group, no drift on a complete group, and no drift with no subscriptions. -/
theorem C5_migration_check_witness :
    migrationCheckSubscriptions "ns" "inst" "s1" [⟨"garbage", "s1"⟩] = true ∧
    migrationCheckSubscriptions "ns" "inst" "s1"
      [⟨"ns:inst:F1:TransferSingle", "s1"⟩] = true ∧
    migrationCheckSubscriptions "ns" "inst" "s1"
      [⟨"ns:inst:F1:TokenPoolCreation", "s1"⟩, ⟨"ns:inst:F1:TransferSingle", "s1"⟩,
       ⟨"ns:inst:F1:TransferBatch", "s1"⟩, ⟨"ns:inst:F1:ApprovalForAll", "s1"⟩] = false ∧
    migrationCheckSubscriptions "ns" "inst" "s1" [] = false :=
  ⟨(C5_migration_check "ns" "inst" "s1" [⟨"garbage", "s1"⟩]).1
      ⟨⟨"garbage", "s1"⟩, by decide, by decide⟩,
   (C5_migration_check "ns" "inst" "s1" [⟨"ns:inst:F1:TransferSingle", "s1"⟩]).2.1
      (by decide) ⟨⟨"ns:inst:F1:TransferSingle", "s1"⟩, by decide, by decide⟩,
   (C5_migration_check "ns" "inst" "s1"
      [⟨"ns:inst:F1:TokenPoolCreation", "s1"⟩, ⟨"ns:inst:F1:TransferSingle", "s1"⟩,
       ⟨"ns:inst:F1:TransferBatch", "s1"⟩, ⟨"ns:inst:F1:ApprovalForAll", "s1"⟩]).2.2.1
      (by decide) (by decide),
   (C5_migration_check "ns" "inst" "s1" []).2.2.2 (by decide)⟩

/-! ## `mint` (C10) -/

/-- The longest leading run of decimal digits. -/
def leadDecDigits : List Char → List Char
  | [] => []
  | c :: cs => if (decDigitVal? c).isSome then c :: leadDecDigits cs else []

/-- JS `parseInt(s)` on the decimal fragment: optional sign, then the longest
leading digit run; `none` models `NaN` (no digits).  Whitespace trimming and
the hex autodetect are outside the modelled fragment. -/
def jsParseInt (s : String) : Option Int :=
  match s.data with
  | '-' :: cs =>
    match leadDecDigits cs with
    | [] => none
    | ds => (parseDecDigits ds 0).map (fun n => -(n : Int))
  | '+' :: cs =>
    match leadDecDigits cs with
    | [] => none
    | ds => (parseDecDigits ds 0).map (fun n => (n : Int))
  | cs =>
    match leadDecDigits cs with
    | [] => none
    | ds => (parseDecDigits ds 0).map (fun n => (n : Int))

structure TokenMintDto where
  poolLocator : String
  «to» : String
  amount : String
  data : Option String := none
  signer : String := ""
  requestId : Option String := none
deriving DecidableEq

structure MintInvocationBody where
  type_id : String
  «to» : List String
  /-- present only on the fungible path (the non-fungible body has no
  `amounts` key) -/
  amounts : Option (List String) := none
  data : String
deriving DecidableEq

structure Invocation where
  path : String
  body : MintInvocationBody
deriving DecidableEq

/-- The tokens service `mint`: a fungible pool invokes `/mintFungible` with
single-element `to` and `amounts` arrays; a non-fungible pool parses the amount
as a whole number and invokes `/mintNonFungible` with that many copies of the
recipient in `to` and no `amounts`.  The returned value is the invocation
submitted to the chain client. -/
def mint (dto : TokenMintDto) : Except String Invocation :=
  let poolLocator := unpackPoolLocator dto.poolLocator
  match packTokenId poolLocator.poolId with
  | none => .error "SyntaxError"
  | some typeId =>
    if isFungible poolLocator.poolId then
      .ok { path := "/mintFungible",
            body := { type_id := typeId, «to» := [dto.«to»],
                      amounts := some [dto.amount],
                      data := encodeHex (dto.data.getD "") } }
    else
      -- the JS loop pushes `dto.to` once per `i < parseInt(dto.amount)`;
      -- a NaN or nonpositive amount leaves the array empty
      let toArr : List String :=
        match jsParseInt dto.amount with
        | none => []
        | some n => List.replicate n.toNat dto.«to»
      .ok { path := "/mintNonFungible",
            body := { type_id := typeId, «to» := toArr, amounts := none,
                      data := encodeHex (dto.data.getD "") } }

/-- **C10.** A mint on a non-fungible pool parses the amount as an integer `N`
and submits `/mintNonFungible` whose `to` array holds exactly `N` copies of the
recipient and which carries no `amounts` array; a mint on a fungible pool
submits `/mintFungible` with single-element `to` and `amounts` arrays. -/
theorem C10_mint_invocation_shapes (dto : TokenMintDto) (tid : String)
    (hpack : packTokenId (unpackPoolLocator dto.poolLocator).poolId = some tid) :
    ((isFungible (unpackPoolLocator dto.poolLocator).poolId = false) →
      ∀ n : Int, jsParseInt dto.amount = some n → 0 ≤ n →
      mint dto = .ok {
        path := "/mintNonFungible",
        body := {
          type_id := tid,
          «to» := List.replicate n.toNat dto.«to»,
          amounts := none,
          data := encodeHex (dto.data.getD "") } })
    ∧ ((isFungible (unpackPoolLocator dto.poolLocator).poolId = true) →
      mint dto = .ok {
        path := "/mintFungible",
        body := {
          type_id := tid,
          «to» := [dto.«to»],
          amounts := some [dto.amount],
          data := encodeHex (dto.data.getD "") } }) := by
  constructor
  · intro hnf n hn hge
    simp [mint, hpack, hnf, hn]
  · intro hf
    simp [mint, hpack, hf]

/-- **C10 witness**: minting 3 tokens on non-fungible pool `N1` submits
`/mintNonFungible` with three copies of the recipient and no amounts array. -/
theorem C10_mint_invocation_shapes_witness :
    (packTokenId (unpackPoolLocator "N1").poolId =
      some "57896044618658097711785492504343953926975274699741220483192166611388333031424") ∧
    mint { poolLocator := "N1", «to» := "0xabc", amount := "3" } = .ok {
      path := "/mintNonFungible",
      body := {
        type_id :=
          "57896044618658097711785492504343953926975274699741220483192166611388333031424",
        «to» := List.replicate (3 : Int).toNat "0xabc",
        amounts := none,
        data := encodeHex ((none : Option String).getD "") } } := by
  have hpool : (unpackPoolLocator "N1").poolId = "N1" := by decide
  have hpack : packTokenId (unpackPoolLocator "N1").poolId =
      some "57896044618658097711785492504343953926975274699741220483192166611388333031424" := by
    rw [hpool]
    exact packTokenId_N1
  exact ⟨hpack,
    (C10_mint_invocation_shapes { poolLocator := "N1", «to» := "0xabc", amount := "3" }
      _ hpack).1 (by decide) 3 (by decide) (by decide)⟩

end ERC1155
